import Mathlib

/-!
Verification of the render-state cache and resource-binding cache of
`jice-nospam/unigame` (`src/engine/context.rs`), as a shallow embedding.

Device interaction is modelled as an explicit trace of emitted GL calls.
Reference-counted resources (`Rc<T>` / `Weak<T>`) are modelled by identity:
a resource is a numeric id, a weak reference either points to an id or is
empty (`Weak::new()`), and upgrading consults an external liveness map
`alive : Nat → Bool` that stands for "some owner still holds a strong
reference".  Bind callbacks are modelled by their outcome (`Except ε Unit`);
they represent external device calls and do not touch the cache state.
-/

namespace Unigame

/-- Modelled from the spec: face-culling mode, declared in `engine::render`
(outside the provided sources); variants per spec §3. -/
inductive CullMode
  | Off
  | Front
  | Back
  | FrontAndBack
deriving DecidableEq, Repr

/-- Modelled from the spec: depth-test function, declared in `engine::render`
(outside the provided sources); variants per spec §3. -/
inductive DepthTest
  | Never
  | Always
  | Less
  | LessEqual
  | Greater
  | NotEqual
  | GreaterEqual
  | Equal
deriving DecidableEq, Repr

/-- The `uni_gl::DepthTest` device-side comparison-function enum
(from `impl ToGLState<uni_gl::DepthTest> for DepthTest`). -/
inductive GlDepthTest
  | Never
  | Always
  | Less
  | Lequal
  | Greater
  | Notequal
  | Gequal
  | Equal
deriving DecidableEq, Repr

/-- Source `DepthTest::as_gl_state` (context.rs lines 16-29). -/
def DepthTest.as_gl_state : DepthTest → GlDepthTest
  | .Never => .Never
  | .Always => .Always
  | .Less => .Less
  | .LessEqual => .Lequal
  | .Greater => .Greater
  | .NotEqual => .Notequal
  | .GreaterEqual => .Gequal
  | .Equal => .Equal

/-- A device capability passed to `gl.enable` / `gl.disable`:
`uni_gl::Flag::Blend`, `uni_gl::Flag::DepthTest`, `uni_gl::Culling::CullFace`
(the numeric `as i32` casts are irrelevant; only distinctness matters). -/
inductive GlCap
  | Blend
  | DepthTestCap
  | CullFace
deriving DecidableEq, Repr

/-- Argument of `gl.cull_face` (`uni_gl::Culling` values used by the source). -/
inductive GlCullFace
  | Front
  | Back
  | FrontAndBack
deriving DecidableEq, Repr

/-- One device call issued by the state cache. -/
inductive GLCall
  | enable (c : GlCap)
  | disable (c : GlCap)
  | depth_mask (b : Bool)
  | depth_func (f : GlDepthTest)
  | cull_face (c : GlCullFace)
deriving DecidableEq, Repr

/-- Modelled from the spec: `MaterialState` (spec §3 "RenderState"), declared in
`engine::render` outside the provided sources; a sparse overlay of the four
optional render-state fields, `Default` being all-`None`. -/
structure MaterialState where
  cull : Option CullMode := none
  depth_test : Option DepthTest := none
  depth_write : Option Bool := none
  alpha_blending : Option Bool := none
deriving DecidableEq, Repr

/-- Source `StateCache` (context.rs lines 31-35): `state` is the applied
(device-visible) state, `curr` the pending merged state. -/
structure StateCache where
  state : MaterialState := {}
  curr : MaterialState := {}
deriving DecidableEq, Repr

/-- Source `StateCache::apply_defaults` (context.rs lines 38-45). -/
def StateCache.apply_defaults (sc : StateCache) : StateCache :=
  { sc with
    curr :=
      { cull := some CullMode.Back
        depth_test := some DepthTest.Less
        alpha_blending := some false
        depth_write := some true } }

/-- Source `StateCache::apply` (context.rs lines 47-53): per-field overlay merge into
`curr`. -/
def StateCache.apply (sc : StateCache) (ms : MaterialState) : StateCache :=
  let sc := match ms.cull with
    | some s => { sc with curr := { sc.curr with cull := some s } }
    | none => sc
  let sc := match ms.depth_test with
    | some s => { sc with curr := { sc.curr with depth_test := some s } }
    | none => sc
  let sc := match ms.depth_write with
    | some s => { sc with curr := { sc.curr with depth_write := some s } }
    | none => sc
  match ms.alpha_blending with
    | some s => { sc with curr := { sc.curr with alpha_blending := some s } }
    | none => sc

/-- Source `StateCache::apply_depth_write` (context.rs lines 64-73); the early
`return` when `state.depth_write` is `Some(b)` is the `then` branch. -/
def StateCache.apply_depth_write (sc : StateCache) (b : Bool) :
    StateCache × List GLCall :=
  if sc.state.depth_write = some b then (sc, [])
  else
    ({ sc with state := { sc.state with depth_write := some b } },
      [GLCall.depth_mask b])

/-- Source `StateCache::apply_alpha_blending` (context.rs lines 75-89). -/
def StateCache.apply_alpha_blending (sc : StateCache) (b : Bool) :
    StateCache × List GLCall :=
  if sc.state.alpha_blending = some b then (sc, [])
  else
    ({ sc with state := { sc.state with alpha_blending := some b } },
      if b then [GLCall.enable GlCap.Blend] else [GLCall.disable GlCap.Blend])

/-- Source `StateCache::apply_depth_test` (context.rs lines 91-106):
`Never` disables the capability, every other value enables it and sets the
comparison function. -/
def StateCache.apply_depth_test (sc : StateCache) (ct : DepthTest) :
    StateCache × List GLCall :=
  if sc.state.depth_test = some ct then (sc, [])
  else
    ({ sc with state := { sc.state with depth_test := some ct } },
      match ct with
      | DepthTest.Never => [GLCall.disable GlCap.DepthTestCap]
      | _ => [GLCall.enable GlCap.DepthTestCap,
              GLCall.depth_func ct.as_gl_state])

/-- Source `StateCache::apply_cull` (context.rs lines 108-134). -/
def StateCache.apply_cull (sc : StateCache) (cm : CullMode) :
    StateCache × List GLCall :=
  if sc.state.cull = some cm then (sc, [])
  else
    ({ sc with state := { sc.state with cull := some cm } },
      match cm with
      | CullMode.Off => [GLCall.disable GlCap.CullFace]
      | CullMode.Front =>
          [GLCall.enable GlCap.CullFace, GLCall.cull_face GlCullFace.Front]
      | CullMode.Back =>
          [GLCall.enable GlCap.CullFace, GLCall.cull_face GlCullFace.Back]
      | CullMode.FrontAndBack =>
          [GLCall.enable GlCap.CullFace,
            GLCall.cull_face GlCullFace.FrontAndBack])

/-- Source `StateCache::commit` (context.rs lines 55-62): for each field present in
`curr`, run the per-field apply; calls are emitted in source order.  The
per-field applies never modify `curr`, so reading each field from the threaded
cache matches the source exactly. -/
def StateCache.commit (sc : StateCache) : StateCache × List GLCall :=
  let r1 := match sc.curr.cull with
    | some s => sc.apply_cull s
    | none => (sc, [])
  let r2 := match r1.1.curr.depth_test with
    | some s => r1.1.apply_depth_test s
    | none => (r1.1, [])
  let r3 := match r2.1.curr.depth_write with
    | some s => r2.1.apply_depth_write s
    | none => (r2.1, [])
  let r4 := match r3.1.curr.alpha_blending with
    | some s => r3.1.apply_alpha_blending s
    | none => (r3.1, [])
  (r4.1, r1.2 ++ r2.2 ++ r3.2 ++ r4.2)

/-! ## Resource binding cache

`Rc<Texture>` / `Rc<T>` resources are modelled by a numeric identity;
`Rc::ptr_eq` is equality of ids.  A `Weak` is either `Weak::new()` (never
upgrades) or the downgrade of a resource id; `upgrade` succeeds exactly when
the external owner still keeps the resource alive (`alive id = true`).
The caller of `prepare_cache_tex` / `prepare_cache` holds an `Rc`, but the
invariant proofs below do not need that assumption. -/

/-- Source `std::rc::Weak<T>`, by identity: `Weak::new()` or `Rc::downgrade(id)`. -/
inductive WeakRef
  | new
  | ref (id : Nat)
deriving DecidableEq, Repr

/-- Source `Weak::upgrade`, relative to the external liveness map. -/
def WeakRef.upgrade (alive : Nat → Bool) : WeakRef → Option Nat
  | .new => none
  | .ref i => if alive i then some i else none

/-- Source `MAX_TEXTURE_UNITS` (context.rs line 196). -/
def MAX_TEXTURE_UNITS : Nat := 8

/-- The texture-unit table `EngineContext::textures : VecDeque<(u32, Weak<Texture>)>`,
head of the list = front of the deque (least recently used). -/
abbrev TexTable := List (Nat × WeakRef)

/-- Source `EngineContext::find_cache_tex` (context.rs lines 213-224): linear scan for
the first entry whose weak reference upgrades to something identity-equal to
`new_tex`; returns `(position, unit)`. -/
def find_cache_tex (alive : Nat → Bool) (new_tex : Nat) :
    TexTable → Option (Nat × Nat)
  | [] => none
  | (u, tex) :: rest =>
    match tex.upgrade alive with
    | some p =>
        if p = new_tex then some (0, u)
        else (find_cache_tex alive new_tex rest).map (fun q => (q.1 + 1, q.2))
    | none => (find_cache_tex alive new_tex rest).map (fun q => (q.1 + 1, q.2))

/-- The source's `position(|(_, t)| t.upgrade().is_none())` followed by
`remove(pos)`: returns the removed entry's unit together with the remaining
table, or `none` when every entry is live. -/
def popFirstDead (alive : Nat → Bool) : TexTable → Option (Nat × TexTable)
  | [] => none
  | e :: rest =>
    if (e.2.upgrade alive).isNone then some (e.1, rest)
    else (popFirstDead alive rest).map (fun q => (q.1, e :: q.2))

/-- The unit-allocation block of `prepare_cache_tex` (context.rs lines
239-251): `unit` starts as the table length; when the table is at or above
capacity, reuse the first dead entry's unit (removing it), else pop the front
(LRU) entry and reuse its unit.  The `[] => (0, [])` arm is unreachable: it is
guarded by `MAX_TEXTURE_UNITS ≤ length`, where the source's
`pop_front().unwrap()` cannot fail. -/
def choose_unit (alive : Nat → Bool) (t : TexTable) : Nat × TexTable :=
  let unit := t.length
  if MAX_TEXTURE_UNITS ≤ unit then
    match popFirstDead alive t with
    | some q => q
    | none =>
      match t with
      | e :: rest => (e.1, rest)
      | [] => (0, [])
  else (unit, t)

/-- Source `EngineContext::prepare_cache_tex` (context.rs lines 226-272).  The bind
callback is modelled by its outcome on the chosen unit; it stands for an
external device call and does not touch the table.  Returns the result
(`Ok(unit)` or the propagated error) and the updated table. -/
def prepare_cache_tex {ε : Type} (alive : Nat → Bool) (new_tex : Nat)
    (bind_func : Nat → Except ε Unit) (t : TexTable) :
    Except ε Nat × TexTable :=
  match find_cache_tex alive new_tex t with
  | some (pos, unit) =>
      (Except.ok unit, t.eraseIdx pos ++ [(unit, WeakRef.ref new_tex)])
  | none =>
    let c := choose_unit alive t
    match bind_func c.1 with
    | Except.ok _ => (Except.ok c.1, c.2 ++ [(c.1, WeakRef.ref new_tex)])
    | Except.error e => (Except.error e, (c.1, WeakRef.new) :: c.2)

/-- Source `EngineContext::need_cache` (context.rs lines 274-283): rebind needed when
the cached weak reference is dead or not identity-equal to the new resource. -/
def need_cache (alive : Nat → Bool) (cache : WeakRef) (new_p : Nat) : Bool :=
  match cache.upgrade alive with
  | none => true
  | some p => !(p = new_p)

/-- Source `EngineContext::prepare_cache` (context.rs lines 199-211).  The bind
callback is modelled by its outcome; the third component counts how many times
it was invoked.  On success the single-slot cache is updated to the downgrade
of the new resource; on failure (and on cache hit) it is left unchanged. -/
def prepare_cache {ε : Type} (alive : Nat → Bool) (cache : WeakRef)
    (new_p : Nat) (bind : Except ε Unit) : Except ε Unit × WeakRef × Nat :=
  if need_cache alive cache new_p then
    match bind with
    | Except.ok _ => (Except.ok (), WeakRef.ref new_p, 1)
    | Except.error e => (Except.error e, cache, 1)
  else (Except.ok (), cache, 0)

/-- One `prepare_cache_tex` call of a sequence: the liveness map at call time
(owners may have dropped textures in between), the requested texture id, and
the bind callback's outcome per unit. -/
structure TexCall (ε : Type) where
  alive : Nat → Bool
  tex : Nat
  bind_func : Nat → Except ε Unit

/-- Run a sequence of `prepare_cache_tex` calls against a table, keeping only
the table (the per-call results are examined separately). -/
def runTexCalls {ε : Type} : List (TexCall ε) → TexTable → TexTable
  | [], t => t
  | c :: rest, t =>
      runTexCalls rest (prepare_cache_tex c.alive c.tex c.bind_func t).2

/-- The unit indices stored in a texture-unit table. -/
def unitsOf (t : TexTable) : List Nat := t.map Prod.fst

/-- Internal invariant of the texture-unit table: unit indices are pairwise
distinct, every stored unit is below the table length, and the length is at
most the capacity. -/
def TexInv (t : TexTable) : Prop :=
  (unitsOf t).Nodup ∧ (∀ u ∈ unitsOf t, u < t.length) ∧
    t.length ≤ MAX_TEXTURE_UNITS

/-- Classifier: calls that touch the culling state. -/
def GLCall.isCull : GLCall → Bool
  | .enable .CullFace => true
  | .disable .CullFace => true
  | .cull_face _ => true
  | _ => false

/-- The device calls `apply_cull` issues for a value it actually applies. -/
def cullCalls : CullMode → List GLCall
  | CullMode.Off => [GLCall.disable GlCap.CullFace]
  | CullMode.Front =>
      [GLCall.enable GlCap.CullFace, GLCall.cull_face GlCullFace.Front]
  | CullMode.Back =>
      [GLCall.enable GlCap.CullFace, GLCall.cull_face GlCullFace.Back]
  | CullMode.FrontAndBack =>
      [GLCall.enable GlCap.CullFace, GLCall.cull_face GlCullFace.FrontAndBack]

/-- The device calls `apply_depth_test` issues for a value it actually
applies: `Never` disables the capability, everything else enables it and sets
the comparison function. -/
def depthTestCalls : DepthTest → List GLCall
  | DepthTest.Never => [GLCall.disable GlCap.DepthTestCap]
  | ct => [GLCall.enable GlCap.DepthTestCap, GLCall.depth_func ct.as_gl_state]

/-- The device calls `apply_depth_write` issues for a value it applies. -/
def depthWriteCalls (b : Bool) : List GLCall := [GLCall.depth_mask b]

/-- The device calls `apply_alpha_blending` issues for a value it applies. -/
def blendCalls (b : Bool) : List GLCall :=
  if b then [GLCall.enable GlCap.Blend] else [GLCall.disable GlCap.Blend]

/-- Per-field result of a commit: the pending value when present, otherwise
the applied value is kept. -/
def committedField {α : Type} (p a : Option α) : Option α :=
  match p with
  | some s => some s
  | none => a

/-- The cull-field device calls of one commit. -/
def commitCullCalls (sc : StateCache) : List GLCall :=
  match sc.curr.cull with
  | some s => if sc.state.cull = some s then [] else cullCalls s
  | none => []

/-- The depth-test-field device calls of one commit. -/
def commitDepthTestCalls (sc : StateCache) : List GLCall :=
  match sc.curr.depth_test with
  | some s => if sc.state.depth_test = some s then [] else depthTestCalls s
  | none => []

/-- The depth-write-field device calls of one commit. -/
def commitDepthWriteCalls (sc : StateCache) : List GLCall :=
  match sc.curr.depth_write with
  | some s => if sc.state.depth_write = some s then [] else depthWriteCalls s
  | none => []

/-- The alpha-blending-field device calls of one commit. -/
def commitBlendCalls (sc : StateCache) : List GLCall :=
  match sc.curr.alpha_blending with
  | some s =>
      if sc.state.alpha_blending = some s then [] else blendCalls s
  | none => []

/-- Classifier: calls that touch the depth-test state. -/
def GLCall.isDepthTest : GLCall → Bool
  | .enable .DepthTestCap => true
  | .disable .DepthTestCap => true
  | .depth_func _ => true
  | _ => false

/-- Classifier: calls that touch the depth-write mask. -/
def GLCall.isDepthWrite : GLCall → Bool
  | .depth_mask _ => true
  | _ => false

/-- Classifier: calls that touch alpha blending. -/
def GLCall.isBlend : GLCall → Bool
  | .enable .Blend => true
  | .disable .Blend => true
  | _ => false

/-! ## Render-state cache lemmas -/

theorem apply_cull_fst (sc : StateCache) (s : CullMode) :
    (sc.apply_cull s).1 = { sc with state := { sc.state with cull := some s } } := by
  unfold StateCache.apply_cull
  split
  · next h => cases sc with
      | mk st cu => cases st; simp_all
  · rfl

theorem apply_depth_test_fst (sc : StateCache) (s : DepthTest) :
    (sc.apply_depth_test s).1 =
      { sc with state := { sc.state with depth_test := some s } } := by
  unfold StateCache.apply_depth_test
  split
  · next h => cases sc with
      | mk st cu => cases st; simp_all
  · rfl

theorem apply_depth_write_fst (sc : StateCache) (s : Bool) :
    (sc.apply_depth_write s).1 =
      { sc with state := { sc.state with depth_write := some s } } := by
  unfold StateCache.apply_depth_write
  split
  · next h => cases sc with
      | mk st cu => cases st; simp_all
  · rfl

theorem apply_alpha_blending_fst (sc : StateCache) (s : Bool) :
    (sc.apply_alpha_blending s).1 =
      { sc with state := { sc.state with alpha_blending := some s } } := by
  unfold StateCache.apply_alpha_blending
  split
  · next h => cases sc with
      | mk st cu => cases st; simp_all
  · rfl

theorem apply_cull_snd (sc : StateCache) (s : CullMode) :
    (sc.apply_cull s).2 =
      if sc.state.cull = some s then [] else cullCalls s := by
  unfold StateCache.apply_cull cullCalls
  split
  · rfl
  · cases s <;> rfl

theorem apply_depth_test_snd (sc : StateCache) (s : DepthTest) :
    (sc.apply_depth_test s).2 =
      if sc.state.depth_test = some s then [] else depthTestCalls s := by
  unfold StateCache.apply_depth_test depthTestCalls
  split
  · rfl
  · cases s <;> rfl

theorem apply_depth_write_snd (sc : StateCache) (s : Bool) :
    (sc.apply_depth_write s).2 =
      if sc.state.depth_write = some s then [] else depthWriteCalls s := by
  unfold StateCache.apply_depth_write depthWriteCalls
  split <;> rfl

theorem apply_alpha_blending_snd (sc : StateCache) (s : Bool) :
    (sc.apply_alpha_blending s).2 =
      if sc.state.alpha_blending = some s then [] else blendCalls s := by
  unfold StateCache.apply_alpha_blending blendCalls
  split <;> rfl

theorem commit_fst (sc : StateCache) :
    sc.commit.1 =
      { state :=
          { cull := committedField sc.curr.cull sc.state.cull
            depth_test := committedField sc.curr.depth_test sc.state.depth_test
            depth_write :=
              committedField sc.curr.depth_write sc.state.depth_write
            alpha_blending :=
              committedField sc.curr.alpha_blending sc.state.alpha_blending }
        curr := sc.curr } := by
  rcases sc with ⟨⟨a, b, c, d⟩, ⟨p, q, r, t⟩⟩
  unfold StateCache.commit
  cases p <;> cases q <;> cases r <;> cases t <;>
    simp [apply_cull_fst, apply_depth_test_fst, apply_depth_write_fst,
      apply_alpha_blending_fst, committedField]

theorem commit_snd (sc : StateCache) :
    sc.commit.2 =
      commitCullCalls sc ++ commitDepthTestCalls sc ++
        commitDepthWriteCalls sc ++ commitBlendCalls sc := by
  rcases sc with ⟨⟨a, b, c, d⟩, ⟨p, q, r, t⟩⟩
  unfold StateCache.commit commitCullCalls commitDepthTestCalls
    commitDepthWriteCalls commitBlendCalls
  cases p <;> cases q <;> cases r <;> cases t <;>
    simp [apply_cull_fst, apply_depth_test_fst, apply_depth_write_fst,
      apply_alpha_blending_fst, apply_cull_snd, apply_depth_test_snd,
      apply_depth_write_snd, apply_alpha_blending_snd]

theorem cullCalls_filter_cull (s : CullMode) :
    (cullCalls s).filter GLCall.isCull = cullCalls s := by cases s <;> rfl

theorem cullCalls_filter_depthTest (s : CullMode) :
    (cullCalls s).filter GLCall.isDepthTest = [] := by cases s <;> rfl

theorem cullCalls_filter_depthWrite (s : CullMode) :
    (cullCalls s).filter GLCall.isDepthWrite = [] := by cases s <;> rfl

theorem cullCalls_filter_blend (s : CullMode) :
    (cullCalls s).filter GLCall.isBlend = [] := by cases s <;> rfl

theorem cullCalls_ne_nil (s : CullMode) : cullCalls s ≠ [] := by
  cases s <;> simp [cullCalls]

theorem depthTestCalls_filter_cull (s : DepthTest) :
    (depthTestCalls s).filter GLCall.isCull = [] := by cases s <;> rfl

theorem depthTestCalls_filter_depthTest (s : DepthTest) :
    (depthTestCalls s).filter GLCall.isDepthTest = depthTestCalls s := by
  cases s <;> rfl

theorem depthTestCalls_filter_depthWrite (s : DepthTest) :
    (depthTestCalls s).filter GLCall.isDepthWrite = [] := by cases s <;> rfl

theorem depthTestCalls_filter_blend (s : DepthTest) :
    (depthTestCalls s).filter GLCall.isBlend = [] := by cases s <;> rfl

theorem depthTestCalls_ne_nil (s : DepthTest) : depthTestCalls s ≠ [] := by
  cases s <;> simp [depthTestCalls]

theorem depthWriteCalls_filter_cull (s : Bool) :
    (depthWriteCalls s).filter GLCall.isCull = [] := by cases s <;> rfl

theorem depthWriteCalls_filter_depthTest (s : Bool) :
    (depthWriteCalls s).filter GLCall.isDepthTest = [] := by cases s <;> rfl

theorem depthWriteCalls_filter_depthWrite (s : Bool) :
    (depthWriteCalls s).filter GLCall.isDepthWrite = depthWriteCalls s := by
  cases s <;> rfl

theorem depthWriteCalls_filter_blend (s : Bool) :
    (depthWriteCalls s).filter GLCall.isBlend = [] := by cases s <;> rfl

theorem depthWriteCalls_ne_nil (s : Bool) : depthWriteCalls s ≠ [] := by
  cases s <;> simp [depthWriteCalls]

theorem blendCalls_filter_cull (s : Bool) :
    (blendCalls s).filter GLCall.isCull = [] := by cases s <;> rfl

theorem blendCalls_filter_depthTest (s : Bool) :
    (blendCalls s).filter GLCall.isDepthTest = [] := by cases s <;> rfl

theorem blendCalls_filter_depthWrite (s : Bool) :
    (blendCalls s).filter GLCall.isDepthWrite = [] := by cases s <;> rfl

theorem blendCalls_filter_blend (s : Bool) :
    (blendCalls s).filter GLCall.isBlend = blendCalls s := by cases s <;> rfl

theorem blendCalls_ne_nil (s : Bool) : blendCalls s ≠ [] := by
  cases s <;> simp [blendCalls]

theorem commitCullCalls_filter_cull (sc : StateCache) :
    (commitCullCalls sc).filter GLCall.isCull = commitCullCalls sc := by
  cases h : sc.curr.cull with
  | none => simp [commitCullCalls, h]
  | some s =>
      simp only [commitCullCalls, h]
      split
      · rfl
      · exact cullCalls_filter_cull s

theorem commitCullCalls_filter_depthTest (sc : StateCache) :
    (commitCullCalls sc).filter GLCall.isDepthTest = [] := by
  cases h : sc.curr.cull with
  | none => simp [commitCullCalls, h]
  | some s =>
      simp only [commitCullCalls, h]
      split
      · rfl
      · exact cullCalls_filter_depthTest s

theorem commitCullCalls_filter_depthWrite (sc : StateCache) :
    (commitCullCalls sc).filter GLCall.isDepthWrite = [] := by
  cases h : sc.curr.cull with
  | none => simp [commitCullCalls, h]
  | some s =>
      simp only [commitCullCalls, h]
      split
      · rfl
      · exact cullCalls_filter_depthWrite s

theorem commitCullCalls_filter_blend (sc : StateCache) :
    (commitCullCalls sc).filter GLCall.isBlend = [] := by
  cases h : sc.curr.cull with
  | none => simp [commitCullCalls, h]
  | some s =>
      simp only [commitCullCalls, h]
      split
      · rfl
      · exact cullCalls_filter_blend s

theorem commitDepthTestCalls_filter_cull (sc : StateCache) :
    (commitDepthTestCalls sc).filter GLCall.isCull = [] := by
  cases h : sc.curr.depth_test with
  | none => simp [commitDepthTestCalls, h]
  | some s =>
      simp only [commitDepthTestCalls, h]
      split
      · rfl
      · exact depthTestCalls_filter_cull s

theorem commitDepthTestCalls_filter_depthTest (sc : StateCache) :
    (commitDepthTestCalls sc).filter GLCall.isDepthTest =
      commitDepthTestCalls sc := by
  cases h : sc.curr.depth_test with
  | none => simp [commitDepthTestCalls, h]
  | some s =>
      simp only [commitDepthTestCalls, h]
      split
      · rfl
      · exact depthTestCalls_filter_depthTest s

theorem commitDepthTestCalls_filter_depthWrite (sc : StateCache) :
    (commitDepthTestCalls sc).filter GLCall.isDepthWrite = [] := by
  cases h : sc.curr.depth_test with
  | none => simp [commitDepthTestCalls, h]
  | some s =>
      simp only [commitDepthTestCalls, h]
      split
      · rfl
      · exact depthTestCalls_filter_depthWrite s

theorem commitDepthTestCalls_filter_blend (sc : StateCache) :
    (commitDepthTestCalls sc).filter GLCall.isBlend = [] := by
  cases h : sc.curr.depth_test with
  | none => simp [commitDepthTestCalls, h]
  | some s =>
      simp only [commitDepthTestCalls, h]
      split
      · rfl
      · exact depthTestCalls_filter_blend s

theorem commitDepthWriteCalls_filter_cull (sc : StateCache) :
    (commitDepthWriteCalls sc).filter GLCall.isCull = [] := by
  cases h : sc.curr.depth_write with
  | none => simp [commitDepthWriteCalls, h]
  | some s =>
      simp only [commitDepthWriteCalls, h]
      split
      · rfl
      · exact depthWriteCalls_filter_cull s

theorem commitDepthWriteCalls_filter_depthTest (sc : StateCache) :
    (commitDepthWriteCalls sc).filter GLCall.isDepthTest = [] := by
  cases h : sc.curr.depth_write with
  | none => simp [commitDepthWriteCalls, h]
  | some s =>
      simp only [commitDepthWriteCalls, h]
      split
      · rfl
      · exact depthWriteCalls_filter_depthTest s

theorem commitDepthWriteCalls_filter_depthWrite (sc : StateCache) :
    (commitDepthWriteCalls sc).filter GLCall.isDepthWrite =
      commitDepthWriteCalls sc := by
  cases h : sc.curr.depth_write with
  | none => simp [commitDepthWriteCalls, h]
  | some s =>
      simp only [commitDepthWriteCalls, h]
      split
      · rfl
      · exact depthWriteCalls_filter_depthWrite s

theorem commitDepthWriteCalls_filter_blend (sc : StateCache) :
    (commitDepthWriteCalls sc).filter GLCall.isBlend = [] := by
  cases h : sc.curr.depth_write with
  | none => simp [commitDepthWriteCalls, h]
  | some s =>
      simp only [commitDepthWriteCalls, h]
      split
      · rfl
      · exact depthWriteCalls_filter_blend s

theorem commitBlendCalls_filter_cull (sc : StateCache) :
    (commitBlendCalls sc).filter GLCall.isCull = [] := by
  cases h : sc.curr.alpha_blending with
  | none => simp [commitBlendCalls, h]
  | some s =>
      simp only [commitBlendCalls, h]
      split
      · rfl
      · exact blendCalls_filter_cull s

theorem commitBlendCalls_filter_depthTest (sc : StateCache) :
    (commitBlendCalls sc).filter GLCall.isDepthTest = [] := by
  cases h : sc.curr.alpha_blending with
  | none => simp [commitBlendCalls, h]
  | some s =>
      simp only [commitBlendCalls, h]
      split
      · rfl
      · exact blendCalls_filter_depthTest s

theorem commitBlendCalls_filter_depthWrite (sc : StateCache) :
    (commitBlendCalls sc).filter GLCall.isDepthWrite = [] := by
  cases h : sc.curr.alpha_blending with
  | none => simp [commitBlendCalls, h]
  | some s =>
      simp only [commitBlendCalls, h]
      split
      · rfl
      · exact blendCalls_filter_depthWrite s

theorem commitBlendCalls_filter_blend (sc : StateCache) :
    (commitBlendCalls sc).filter GLCall.isBlend = commitBlendCalls sc := by
  cases h : sc.curr.alpha_blending with
  | none => simp [commitBlendCalls, h]
  | some s =>
      simp only [commitBlendCalls, h]
      split
      · rfl
      · exact blendCalls_filter_blend s

theorem commit_filter_cull (sc : StateCache) :
    sc.commit.2.filter GLCall.isCull = commitCullCalls sc := by
  rw [commit_snd]
  simp [List.filter_append, commitCullCalls_filter_cull,
    commitDepthTestCalls_filter_cull, commitDepthWriteCalls_filter_cull,
    commitBlendCalls_filter_cull]

theorem commit_filter_depthTest (sc : StateCache) :
    sc.commit.2.filter GLCall.isDepthTest = commitDepthTestCalls sc := by
  rw [commit_snd]
  simp [List.filter_append, commitCullCalls_filter_depthTest,
    commitDepthTestCalls_filter_depthTest,
    commitDepthWriteCalls_filter_depthTest, commitBlendCalls_filter_depthTest]

theorem commit_filter_depthWrite (sc : StateCache) :
    sc.commit.2.filter GLCall.isDepthWrite = commitDepthWriteCalls sc := by
  rw [commit_snd]
  simp [List.filter_append, commitCullCalls_filter_depthWrite,
    commitDepthTestCalls_filter_depthWrite,
    commitDepthWriteCalls_filter_depthWrite,
    commitBlendCalls_filter_depthWrite]

theorem commit_filter_blend (sc : StateCache) :
    sc.commit.2.filter GLCall.isBlend = commitBlendCalls sc := by
  rw [commit_snd]
  simp [List.filter_append, commitCullCalls_filter_blend,
    commitDepthTestCalls_filter_blend, commitDepthWriteCalls_filter_blend,
    commitBlendCalls_filter_blend]

theorem commitCullCalls_ne_nil_iff (sc : StateCache) :
    commitCullCalls sc ≠ [] ↔
      ∃ s, sc.curr.cull = some s ∧ ¬ sc.state.cull = some s := by
  cases h : sc.curr.cull with
  | none => simp [commitCullCalls, h]
  | some s =>
      simp only [commitCullCalls, h]
      by_cases he : sc.state.cull = some s
      · simp [he]
      · simp [he, cullCalls_ne_nil s]

theorem commitDepthTestCalls_ne_nil_iff (sc : StateCache) :
    commitDepthTestCalls sc ≠ [] ↔
      ∃ s, sc.curr.depth_test = some s ∧ ¬ sc.state.depth_test = some s := by
  cases h : sc.curr.depth_test with
  | none => simp [commitDepthTestCalls, h]
  | some s =>
      simp only [commitDepthTestCalls, h]
      by_cases he : sc.state.depth_test = some s
      · simp [he]
      · simp [he, depthTestCalls_ne_nil s]

theorem commitDepthWriteCalls_ne_nil_iff (sc : StateCache) :
    commitDepthWriteCalls sc ≠ [] ↔
      ∃ s, sc.curr.depth_write = some s ∧ ¬ sc.state.depth_write = some s := by
  cases h : sc.curr.depth_write with
  | none => simp [commitDepthWriteCalls, h]
  | some s =>
      simp only [commitDepthWriteCalls, h]
      by_cases he : sc.state.depth_write = some s
      · simp [he]
      · simp [he, depthWriteCalls_ne_nil s]

theorem commitBlendCalls_ne_nil_iff (sc : StateCache) :
    commitBlendCalls sc ≠ [] ↔
      ∃ s, sc.curr.alpha_blending = some s ∧
        ¬ sc.state.alpha_blending = some s := by
  cases h : sc.curr.alpha_blending with
  | none => simp [commitBlendCalls, h]
  | some s =>
      simp only [commitBlendCalls, h]
      by_cases he : sc.state.alpha_blending = some s
      · simp [he]
      · simp [he, blendCalls_ne_nil s]

theorem apply_preserves_state (sc : StateCache) (ms : MaterialState) :
    (sc.apply ms).state = sc.state := by
  rcases ms with ⟨mc, mt, mw, mb⟩
  unfold StateCache.apply
  cases mc <;> cases mt <;> cases mw <;> cases mb <;> rfl

theorem apply_defaults_preserves_state (sc : StateCache) :
    sc.apply_defaults.state = sc.state := rfl

theorem commit_of_applied (sc : StateCache)
    (h1 : ∀ s, sc.curr.cull = some s → sc.state.cull = some s)
    (h2 : ∀ s, sc.curr.depth_test = some s → sc.state.depth_test = some s)
    (h3 : ∀ s, sc.curr.depth_write = some s → sc.state.depth_write = some s)
    (h4 : ∀ s, sc.curr.alpha_blending = some s →
      sc.state.alpha_blending = some s) :
    sc.commit = (sc, []) := by
  rcases sc with ⟨⟨a, b, c, d⟩, ⟨p, q, r, t⟩⟩
  unfold StateCache.commit
  cases p <;> cases q <;> cases r <;> cases t <;>
    simp_all [StateCache.apply_cull, StateCache.apply_depth_test,
      StateCache.apply_depth_write, StateCache.apply_alpha_blending]

/-- C1: for every commit of the render-state cache and each of the four
fields, a device call of that field's kind is issued iff `pending` (`curr`)
has a value for the field and `applied` (`state`) does not already hold that
value; the committed `applied` field is the pending value when present and is
otherwise unchanged (so when pending equals applied, nothing is issued and
nothing changes); `applied` is mutated only by `commit` (per-field): `apply`
and `apply_defaults` never touch it, and `commit` never touches `pending`. -/
theorem C1_commit_per_field_diffing (sc : StateCache) :
    ((sc.commit.2.filter GLCall.isCull ≠ [] ↔
        ∃ s, sc.curr.cull = some s ∧ ¬ sc.state.cull = some s) ∧
      sc.commit.1.state.cull = committedField sc.curr.cull sc.state.cull) ∧
    ((sc.commit.2.filter GLCall.isDepthTest ≠ [] ↔
        ∃ s, sc.curr.depth_test = some s ∧
          ¬ sc.state.depth_test = some s) ∧
      sc.commit.1.state.depth_test =
        committedField sc.curr.depth_test sc.state.depth_test) ∧
    ((sc.commit.2.filter GLCall.isDepthWrite ≠ [] ↔
        ∃ s, sc.curr.depth_write = some s ∧
          ¬ sc.state.depth_write = some s) ∧
      sc.commit.1.state.depth_write =
        committedField sc.curr.depth_write sc.state.depth_write) ∧
    ((sc.commit.2.filter GLCall.isBlend ≠ [] ↔
        ∃ s, sc.curr.alpha_blending = some s ∧
          ¬ sc.state.alpha_blending = some s) ∧
      sc.commit.1.state.alpha_blending =
        committedField sc.curr.alpha_blending sc.state.alpha_blending) ∧
    (∀ ms, (sc.apply ms).state = sc.state) ∧
    sc.apply_defaults.state = sc.state ∧
    sc.commit.1.curr = sc.curr := by
  refine ⟨⟨?_, ?_⟩, ⟨?_, ?_⟩, ⟨?_, ?_⟩, ⟨?_, ?_⟩,
    fun ms => apply_preserves_state sc ms,
    apply_defaults_preserves_state sc, ?_⟩
  · rw [commit_filter_cull]
    exact commitCullCalls_ne_nil_iff sc
  · simp [commit_fst]
  · rw [commit_filter_depthTest]
    exact commitDepthTestCalls_ne_nil_iff sc
  · simp [commit_fst]
  · rw [commit_filter_depthWrite]
    exact commitDepthWriteCalls_ne_nil_iff sc
  · simp [commit_fst]
  · rw [commit_filter_blend]
    exact commitBlendCalls_ne_nil_iff sc
  · simp [commit_fst]
  · simp [commit_fst]

/-- C5: when commit applies a pending depth-test value differing from the
applied one, a pending `Never` issues exactly the single call disabling the
depth-test capability (no comparison-function call), and every other value
enables the capability and sets the corresponding device comparison
function. -/
theorem C5_commit_depth_test_never_disables (sc : StateCache) (v : DepthTest)
    (h1 : sc.curr.depth_test = some v)
    (h2 : ¬ sc.state.depth_test = some v) :
    sc.commit.2.filter GLCall.isDepthTest =
      (if v = DepthTest.Never then [GLCall.disable GlCap.DepthTestCap]
       else [GLCall.enable GlCap.DepthTestCap,
             GLCall.depth_func v.as_gl_state]) := by
  rw [commit_filter_depthTest]
  simp only [commitDepthTestCalls, h1]
  rw [if_neg h2]
  cases v <;> rfl

theorem C5_witness :
    ({ state := {},
       curr := { depth_test := some DepthTest.Never } } :
        StateCache).commit.2.filter GLCall.isDepthTest =
      (if DepthTest.Never = DepthTest.Never
       then [GLCall.disable GlCap.DepthTestCap]
       else [GLCall.enable GlCap.DepthTestCap,
             GLCall.depth_func DepthTest.Never.as_gl_state]) :=
  C5_commit_depth_test_never_disables
    { state := {}, curr := { depth_test := some DepthTest.Never } }
    DepthTest.Never rfl (by decide)

/-- C10: commit is idempotent with respect to device calls — immediately
after a commit (pending is untouched by commit, see `C1`), a second commit
issues no device calls and leaves both `applied` and `pending` exactly as
they were. -/
theorem C10_commit_idempotent (sc : StateCache) :
    StateCache.commit sc.commit.1 = (sc.commit.1, []) := by
  apply commit_of_applied
  · intro s h
    rw [commit_fst] at h ⊢
    simp only at h ⊢
    simp [h, committedField]
  · intro s h
    rw [commit_fst] at h ⊢
    simp only at h ⊢
    simp [h, committedField]
  · intro s h
    rw [commit_fst] at h ⊢
    simp only at h ⊢
    simp [h, committedField]
  · intro s h
    rw [commit_fst] at h ⊢
    simp only at h ⊢
    simp [h, committedField]

/-! ## Texture-table lemmas -/

theorem map_eraseIdx {α β : Type} (f : α → β) (l : List α) (i : Nat) :
    (l.eraseIdx i).map f = (l.map f).eraseIdx i := by
  induction l generalizing i with
  | nil => rfl
  | cons a tl ih =>
      cases i with
      | zero => rfl
      | succ j => simpa using ih j

theorem cons_eraseIdx_perm {α : Type} (l : List α) (i : Nat) (a : α)
    (h : l[i]? = some a) : (a :: l.eraseIdx i).Perm l := by
  induction l generalizing i with
  | nil => simp at h
  | cons x tl ih =>
      cases i with
      | zero =>
          rw [List.getElem?_cons_zero] at h
          cases h
          exact List.Perm.refl _
      | succ j =>
          rw [List.getElem?_cons_succ] at h
          have step : (a :: x :: tl.eraseIdx j).Perm (x :: a :: tl.eraseIdx j) :=
            List.Perm.swap x a _
          exact step.trans ((ih j h).cons x)

theorem find_cache_tex_spec (alive : Nat → Bool) (tex : Nat) (t : TexTable)
    (pos u : Nat) (h : find_cache_tex alive tex t = some (pos, u)) :
    ∃ w, t[pos]? = some (u, w) ∧ w.upgrade alive = some tex := by
  induction t generalizing pos with
  | nil => simp [find_cache_tex] at h
  | cons e tl ih =>
      rcases e with ⟨v, w0⟩
      rw [find_cache_tex] at h
      cases hw : w0.upgrade alive with
      | some p =>
          rw [hw] at h
          simp only [] at h
          by_cases hp : p = tex
          · rw [if_pos hp] at h
            cases h
            exact ⟨w0, List.getElem?_cons_zero, hp ▸ hw⟩
          · rw [if_neg hp] at h
            obtain ⟨q, hq, hq2⟩ := Option.map_eq_some'.mp h
            rw [Prod.ext_iff] at hq2
            obtain ⟨h5, h6⟩ := hq2
            subst h5; subst h6
            obtain ⟨w, hw2, hw3⟩ := ih q.1 hq
            exact ⟨w, by simpa [List.getElem?_cons_succ] using hw2, hw3⟩
      | none =>
          rw [hw] at h
          simp only [] at h
          obtain ⟨q, hq, hq2⟩ := Option.map_eq_some'.mp h
          rw [Prod.ext_iff] at hq2
          obtain ⟨h5, h6⟩ := hq2
          subst h5; subst h6
          obtain ⟨w, hw2, hw3⟩ := ih q.1 hq
          exact ⟨w, by simpa [List.getElem?_cons_succ] using hw2, hw3⟩

theorem popFirstDead_perm (alive : Nat → Bool) (t : TexTable) (u : Nat)
    (rest : TexTable) (h : popFirstDead alive t = some (u, rest)) :
    (unitsOf t).Perm (u :: unitsOf rest) ∧ t.length = rest.length + 1 := by
  induction t generalizing u rest with
  | nil => simp [popFirstDead] at h
  | cons e tl ih =>
      rw [popFirstDead] at h
      by_cases hd : ((e.2).upgrade alive).isNone
      · rw [if_pos hd] at h
        cases h
        exact ⟨List.Perm.refl _, rfl⟩
      · rw [if_neg hd] at h
        obtain ⟨q, hq, hq2⟩ := Option.map_eq_some'.mp h
        rw [Prod.ext_iff] at hq2
        obtain ⟨h5, h6⟩ := hq2
        subst h5; subst h6
        obtain ⟨hperm, hlen⟩ := ih q.1 q.2 (by simpa using hq)
        constructor
        · have step : (unitsOf (e :: tl)).Perm (e.1 :: q.1 :: unitsOf q.2) := by
            simpa [unitsOf] using hperm.cons e.1
          exact step.trans (List.Perm.swap q.1 e.1 _)
        · simp only [List.length_cons, hlen]

theorem popFirstDead_spec (alive : Nat → Bool) (t : TexTable) (u : Nat)
    (rest : TexTable) (h : popFirstDead alive t = some (u, rest)) :
    ∃ pos w, t[pos]? = some (u, w) ∧ w.upgrade alive = none ∧
      (∀ i e, i < pos → t[i]? = some e →
        ((e : Nat × WeakRef).2.upgrade alive).isSome = true) ∧
      rest = t.eraseIdx pos := by
  induction t generalizing u rest with
  | nil => simp [popFirstDead] at h
  | cons e tl ih =>
      rw [popFirstDead] at h
      by_cases hd : ((e.2).upgrade alive).isNone
      · rw [if_pos hd] at h
        cases h
        refine ⟨0, e.2, by simp, Option.isNone_iff_eq_none.mp hd, ?_, rfl⟩
        intro i f hi _
        omega
      · rw [if_neg hd] at h
        obtain ⟨q, hq, hq2⟩ := Option.map_eq_some'.mp h
        rw [Prod.ext_iff] at hq2
        obtain ⟨h5, h6⟩ := hq2
        subst h5; subst h6
        obtain ⟨pos, w, h1, h2, h3, h4⟩ := ih q.1 q.2 (by simpa using hq)
        refine ⟨pos + 1, w, by simpa [List.getElem?_cons_succ] using h1, h2,
          ?_, by simp [h4]⟩
        intro i f hi hf
        cases i with
        | zero =>
            rw [List.getElem?_cons_zero] at hf
            cases hf
            rcases hu : (e.2).upgrade alive with _ | p
            · exact absurd (by simp [hu]) hd
            · rfl
        | succ j =>
            rw [List.getElem?_cons_succ] at hf
            exact h3 j f (by omega) hf

theorem popFirstDead_none (alive : Nat → Bool) (t : TexTable)
    (h : popFirstDead alive t = none) :
    ∀ e ∈ t, ((e : Nat × WeakRef).2.upgrade alive).isSome = true := by
  induction t with
  | nil => simp
  | cons e tl ih =>
      rw [popFirstDead] at h
      by_cases hd : ((e.2).upgrade alive).isNone
      · rw [if_pos hd] at h
        simp at h
      · rw [if_neg hd] at h
        intro f hf
        rcases List.mem_cons.mp hf with rfl | hmem
        · rcases hu : (f.2).upgrade alive with _ | p
          · exact absurd (by simp [hu]) hd
          · rfl
        · exact ih (Option.map_eq_none'.mp h) f hmem

/-! ## Texture-table invariant -/

theorem texInv_nil : TexInv [] := by
  refine ⟨List.nodup_nil, ?_, ?_⟩
  · intro u hu
    simp [unitsOf] at hu
  · simp [MAX_TEXTURE_UNITS]

theorem texInv_of_perm_len (t t2 : TexTable)
    (hp : (unitsOf t2).Perm (unitsOf t)) (hl : t2.length = t.length)
    (h : TexInv t) : TexInv t2 := by
  obtain ⟨h1, h2, h3⟩ := h
  refine ⟨hp.symm.nodup h1, ?_, ?_⟩
  · intro u hu
    rw [hl]
    exact h2 u (hp.subset hu)
  · rw [hl]
    exact h3

theorem texInv_hit (t : TexTable) (pos u : Nat) (w w2 : WeakRef)
    (hpos : t[pos]? = some (u, w)) (h : TexInv t) :
    TexInv (t.eraseIdx pos ++ [(u, w2)]) := by
  have hlt : pos < t.length := (List.getElem?_eq_some_iff.mp hpos).1
  have hu : (unitsOf t)[pos]? = some u := by
    simp [unitsOf, List.getElem?_map, hpos]
  apply texInv_of_perm_len _ _ ?_ ?_ h
  · have e1 : unitsOf (t.eraseIdx pos ++ [(u, w2)]) =
        (unitsOf t).eraseIdx pos ++ [u] := by
      simp [unitsOf, map_eraseIdx]
    rw [e1]
    exact (List.perm_append_singleton u _).trans (cons_eraseIdx_perm _ pos u hu)
  · have := List.length_eraseIdx t pos
    simp only [List.length_append, List.length_cons, List.length_nil, this]
    rw [if_pos hlt]
    omega

theorem texInv_fresh_snoc (t : TexTable) (w : WeakRef) (h : TexInv t)
    (hlen : t.length < MAX_TEXTURE_UNITS) :
    TexInv (t ++ [(t.length, w)]) := by
  obtain ⟨h1, h2, h3⟩ := h
  have hnotmem : t.length ∉ unitsOf t := fun hm =>
    absurd (h2 _ hm) (lt_irrefl _)
  refine ⟨?_, ?_, ?_⟩
  · have e1 : unitsOf (t ++ [(t.length, w)]) = unitsOf t ++ [t.length] := by
      simp [unitsOf]
    rw [e1]
    exact (List.perm_append_singleton _ _).symm.nodup
      (List.nodup_cons.mpr ⟨hnotmem, h1⟩)
  · intro v hv
    have e1 : unitsOf (t ++ [(t.length, w)]) = unitsOf t ++ [t.length] := by
      simp [unitsOf]
    rw [e1] at hv
    rcases List.mem_append.mp hv with hm | hm
    · have := h2 v hm
      simp only [List.length_append, List.length_cons, List.length_nil]
      omega
    · simp only [List.mem_singleton] at hm
      simp only [List.length_append, List.length_cons, List.length_nil, hm]
      omega
  · simp only [List.length_append, List.length_cons, List.length_nil]
    omega

theorem texInv_fresh_cons (t : TexTable) (w : WeakRef) (h : TexInv t)
    (hlen : t.length < MAX_TEXTURE_UNITS) :
    TexInv ((t.length, w) :: t) := by
  obtain ⟨h1, h2, h3⟩ := h
  have hnotmem : t.length ∉ unitsOf t := fun hm =>
    absurd (h2 _ hm) (lt_irrefl _)
  refine ⟨?_, ?_, ?_⟩
  · have e1 : unitsOf ((t.length, w) :: t) = t.length :: unitsOf t := rfl
    rw [e1]
    exact List.nodup_cons.mpr ⟨hnotmem, h1⟩
  · intro v hv
    rcases List.mem_cons.mp hv with hm | hm
    · simp only [List.length_cons, hm]
      omega
    · have := h2 v hm
      simp only [List.length_cons]
      omega
  · simp only [List.length_cons]
    omega

theorem texInv_reuse_snoc (t rest : TexTable) (u : Nat) (w : WeakRef)
    (hperm : (unitsOf t).Perm (u :: unitsOf rest))
    (hlen : t.length = rest.length + 1) (h : TexInv t) :
    TexInv (rest ++ [(u, w)]) := by
  apply texInv_of_perm_len _ _ ?_ ?_ h
  · have e1 : unitsOf (rest ++ [(u, w)]) = unitsOf rest ++ [u] := by
      simp [unitsOf]
    rw [e1]
    exact (List.perm_append_singleton u _).trans hperm.symm
  · simp only [List.length_append, List.length_cons, List.length_nil]
    omega

theorem texInv_reuse_cons (t rest : TexTable) (u : Nat) (w : WeakRef)
    (hperm : (unitsOf t).Perm (u :: unitsOf rest))
    (hlen : t.length = rest.length + 1) (h : TexInv t) :
    TexInv ((u, w) :: rest) := by
  apply texInv_of_perm_len _ _ ?_ ?_ h
  · exact hperm.symm
  · simp only [List.length_cons]
    omega

/-- Case analysis of the allocation block: below capacity the fresh unit is
the table length and nothing is removed; at or above capacity the reused unit
comes out of the table (first dead entry, else the head), so the multiset of
stored units loses exactly the reused one. -/
theorem choose_unit_cases (alive : Nat → Bool) (t : TexTable) :
    (t.length < MAX_TEXTURE_UNITS ∧ choose_unit alive t = (t.length, t)) ∨
    (MAX_TEXTURE_UNITS ≤ t.length ∧
      ∃ u rest, choose_unit alive t = (u, rest) ∧
        (unitsOf t).Perm (u :: unitsOf rest) ∧
        t.length = rest.length + 1) := by
  by_cases hc : MAX_TEXTURE_UNITS ≤ t.length
  · right
    refine ⟨hc, ?_⟩
    unfold choose_unit
    rw [if_pos hc]
    cases hp : popFirstDead alive t with
    | some q =>
        obtain ⟨hperm, hlen⟩ := popFirstDead_perm alive t q.1 q.2 (by simpa using hp)
        exact ⟨q.1, q.2, rfl, hperm, hlen⟩
    | none =>
        cases t with
        | nil => simp [MAX_TEXTURE_UNITS] at hc
        | cons e tl =>
            refine ⟨e.1, tl, rfl, ?_, rfl⟩
            exact List.Perm.refl _
  · left
    have hlt : t.length < MAX_TEXTURE_UNITS := Nat.lt_of_not_le hc
    refine ⟨hlt, ?_⟩
    unfold choose_unit
    rw [if_neg hc]

/-- The table invariant is preserved by every `prepare_cache_tex` call,
whatever the bind callback's outcome. -/
theorem texInv_prepare {ε : Type} (alive : Nat → Bool) (tex : Nat)
    (bind_func : Nat → Except ε Unit) (t : TexTable) (h : TexInv t) :
    TexInv (prepare_cache_tex alive tex bind_func t).2 := by
  unfold prepare_cache_tex
  cases hf : find_cache_tex alive tex t with
  | some q =>
      rcases q with ⟨pos, u⟩
      obtain ⟨w, hw, _⟩ := find_cache_tex_spec alive tex t pos u hf
      simpa using texInv_hit t pos u w (WeakRef.ref tex) hw h
  | none =>
      rcases choose_unit_cases alive t with ⟨hlt, hcu⟩ | ⟨hge, u, rest, hcu, hperm, hlen⟩
      · rw [hcu]
        cases hb : bind_func t.length with
        | ok _ => simpa [hb] using texInv_fresh_snoc t (WeakRef.ref tex) h hlt
        | error e => simpa [hb] using texInv_fresh_cons t WeakRef.new h hlt
      · rw [hcu]
        cases hb : bind_func u with
        | ok _ => simpa [hb] using texInv_reuse_snoc t rest u (WeakRef.ref tex) hperm hlen h
        | error e => simpa [hb] using texInv_reuse_cons t rest u WeakRef.new hperm hlen h

theorem texInv_run {ε : Type} (calls : List (TexCall ε)) (t : TexTable)
    (h : TexInv t) : TexInv (runTexCalls calls t) := by
  induction calls generalizing t with
  | nil => exact h
  | cons c rest ih =>
      exact ih _ (texInv_prepare c.alive c.tex c.bind_func t h)

theorem prepare_ok_lt {ε : Type} (alive : Nat → Bool) (tex : Nat)
    (bind_func : Nat → Except ε Unit) (t : TexTable) (h : TexInv t) (u : Nat)
    (hp : (prepare_cache_tex alive tex bind_func t).1 = Except.ok u) :
    u < MAX_TEXTURE_UNITS := by
  obtain ⟨h1, h2, h3⟩ := h
  unfold prepare_cache_tex at hp
  cases hf : find_cache_tex alive tex t with
  | some q =>
      rcases q with ⟨pos, unt⟩
      rw [hf] at hp
      simp at hp
      obtain ⟨w, hw, _⟩ := find_cache_tex_spec alive tex t pos unt hf
      have hmem : unt ∈ unitsOf t :=
        List.mem_map.mpr ⟨(unt, w), List.getElem?_mem hw, rfl⟩
      have h4 := lt_of_lt_of_le (h2 _ hmem) h3
      omega
  | none =>
      rw [hf] at hp
      rcases choose_unit_cases alive t with ⟨hlt, hcu⟩ |
        ⟨hge, u2, rest, hcu, hperm, hlen⟩
      · rw [hcu] at hp
        cases hb : bind_func t.length with
        | ok _ =>
            simp [hb] at hp
            omega
        | error e =>
            simp [hb] at hp
      · rw [hcu] at hp
        cases hb : bind_func u2 with
        | ok _ =>
            simp [hb] at hp
            have hmem : u2 ∈ unitsOf t :=
              hperm.mem_iff.mpr (List.mem_cons.mpr (Or.inl rfl))
            have h4 := lt_of_lt_of_le (h2 _ hmem) h3
            omega
        | error e =>
            simp [hb] at hp

/-- C2: for every sequence of `prepare_cache_tex` calls (each with its own
liveness map and a bind callback that may succeed or fail), starting from the
empty table of a fresh `EngineContext`, the unit indices stored in the table
are pairwise distinct and the table length never exceeds
`MAX_TEXTURE_UNITS`.  Quantifying over all call sequences covers every point
of every execution. -/
theorem C2_tex_table_invariant {ε : Type} (calls : List (TexCall ε)) :
    (unitsOf (runTexCalls calls [])).Nodup ∧
    (runTexCalls calls []).length ≤ MAX_TEXTURE_UNITS := by
  obtain ⟨h1, _, h3⟩ := texInv_run calls [] texInv_nil
  exact ⟨h1, h3⟩

/-- C9: along every sequence of `prepare_cache_tex` calls, including failing
ones, every unit stored in the table and every unit returned by a successful
call is strictly below `MAX_TEXTURE_UNITS` (8). -/
theorem C9_units_below_capacity {ε : Type} (calls : List (TexCall ε)) :
    (∀ v ∈ unitsOf (runTexCalls calls []), v < MAX_TEXTURE_UNITS) ∧
    (∀ (alive : Nat → Bool) (tex : Nat) (bind_func : Nat → Except ε Unit)
      (u : Nat),
      (prepare_cache_tex alive tex bind_func (runTexCalls calls [])).1 =
        Except.ok u → u < MAX_TEXTURE_UNITS) := by
  have hinv := texInv_run calls [] texInv_nil
  constructor
  · intro v hv
    exact lt_of_lt_of_le (hinv.2.1 v hv) hinv.2.2
  · intro alive tex bind_func u hp
    exact prepare_ok_lt alive tex bind_func _ hinv u hp

theorem C9_witness : (0 : Nat) < MAX_TEXTURE_UNITS :=
  (@C9_units_below_capacity Unit []).2 (fun _ => true) 0
    (fun _ => Except.ok ()) 0 rfl

/-- C6: when the requested texture is found in the table (its weak reference
upgrades to an identity-equal texture), the matching entry is removed and
re-inserted at the tail with the same unit index, that unit is returned `Ok`,
no bind callback is invoked (the result is independent of the callback), and
the relative order of all other entries is untouched. -/
theorem C6_rebind_hit_moves_to_tail {ε : Type} (alive : Nat → Bool)
    (tex : Nat) (t : TexTable) (pos u : Nat)
    (hfind : find_cache_tex alive tex t = some (pos, u)) :
    (∃ w, t[pos]? = some (u, w) ∧ w.upgrade alive = some tex) ∧
    ∀ bind_func : Nat → Except ε Unit,
      prepare_cache_tex alive tex bind_func t =
        (Except.ok u, t.eraseIdx pos ++ [(u, WeakRef.ref tex)]) := by
  refine ⟨find_cache_tex_spec alive tex t pos u hfind, ?_⟩
  intro bind_func
  unfold prepare_cache_tex
  rw [hfind]

theorem C6_witness :
    (∃ w, ([(5, WeakRef.ref 7)] : TexTable)[0]? = some (5, w) ∧
      w.upgrade (fun _ => true) = some 7) ∧
    prepare_cache_tex (fun _ => true) 7
        (fun _ => (Except.error () : Except Unit Unit)) [(5, WeakRef.ref 7)] =
      (Except.ok 5,
        ([(5, WeakRef.ref 7)] : TexTable).eraseIdx 0 ++
          [(5, WeakRef.ref 7)]) :=
  ⟨(@C6_rebind_hit_moves_to_tail Unit (fun _ => true) 7 [(5, WeakRef.ref 7)]
      0 5 rfl).1,
    (@C6_rebind_hit_moves_to_tail Unit (fun _ => true) 7 [(5, WeakRef.ref 7)]
      0 5 rfl).2 (fun _ => Except.error ())⟩

/-- C3: on a miss, the chosen unit is the table length when below capacity;
otherwise the unit of the first entry whose weak reference fails to upgrade
(that dead entry being removed), all earlier entries being live; otherwise
(every entry live) the unit of the head entry, which is removed (LRU
eviction).  Stated through a successful bind: the chosen unit is returned
`Ok` and the new entry is appended at the tail. -/
theorem C3_fresh_unit_choice {ε : Type} (alive : Nat → Bool) (tex : Nat)
    (t : TexTable) (hmiss : find_cache_tex alive tex t = none) :
    ∃ u t2,
      prepare_cache_tex alive tex (fun _ => (Except.ok () : Except ε Unit))
          t = (Except.ok u, t2) ∧
      (t.length < MAX_TEXTURE_UNITS →
        u = t.length ∧ t2 = t ++ [(u, WeakRef.ref tex)]) ∧
      (MAX_TEXTURE_UNITS ≤ t.length →
        (∃ pos w, t[pos]? = some (u, w) ∧ w.upgrade alive = none ∧
          (∀ i e, i < pos → t[i]? = some e →
            ((e : Nat × WeakRef).2.upgrade alive).isSome = true) ∧
          t2 = t.eraseIdx pos ++ [(u, WeakRef.ref tex)]) ∨
        ((∀ e ∈ t, ((e : Nat × WeakRef).2.upgrade alive).isSome = true) ∧
          ∃ w rest, t = (u, w) :: rest ∧
            t2 = rest ++ [(u, WeakRef.ref tex)])) := by
  by_cases hc : MAX_TEXTURE_UNITS ≤ t.length
  · cases hp : popFirstDead alive t with
    | some q =>
        have hcu : choose_unit alive t = q := by
          unfold choose_unit
          rw [if_pos hc, hp]
        obtain ⟨pos, w, h1, h2, h3, h4⟩ :=
          popFirstDead_spec alive t q.1 q.2 (by simpa using hp)
        refine ⟨q.1, q.2 ++ [(q.1, WeakRef.ref tex)],
          by simp [prepare_cache_tex, hmiss, hcu], ?_, ?_⟩
        · intro hlt
          exact absurd hlt (Nat.not_lt.mpr hc)
        · intro _
          exact Or.inl ⟨pos, w, h1, h2, h3, by rw [h4]⟩
    | none =>
        cases t with
        | nil => simp [MAX_TEXTURE_UNITS] at hc
        | cons f tl =>
            have hcu : choose_unit alive (f :: tl) = (f.1, tl) := by
              unfold choose_unit
              rw [if_pos hc, hp]
            refine ⟨f.1, tl ++ [(f.1, WeakRef.ref tex)],
              by simp [prepare_cache_tex, hmiss, hcu], ?_, ?_⟩
            · intro hlt
              exact absurd hlt (Nat.not_lt.mpr hc)
            · intro _
              exact Or.inr ⟨popFirstDead_none alive _ hp, f.2, tl, rfl, rfl⟩
  · have hlt := Nat.lt_of_not_le hc
    have hcu : choose_unit alive t = (t.length, t) := by
      unfold choose_unit
      rw [if_neg hc]
    exact ⟨t.length, t ++ [(t.length, WeakRef.ref tex)],
      by simp [prepare_cache_tex, hmiss, hcu], fun _ => ⟨rfl, rfl⟩,
      fun hge => absurd hlt (Nat.not_lt.mpr hge)⟩

theorem C3_witness :
    ∃ u t2,
      prepare_cache_tex (fun _ => true) 0
          (fun _ => (Except.ok () : Except Unit Unit)) ([] : TexTable) =
        (Except.ok u, t2) ∧
      (([] : TexTable).length < MAX_TEXTURE_UNITS →
        u = ([] : TexTable).length ∧
          t2 = ([] : TexTable) ++ [(u, WeakRef.ref 0)]) ∧
      (MAX_TEXTURE_UNITS ≤ ([] : TexTable).length →
        (∃ pos w, ([] : TexTable)[pos]? = some (u, w) ∧
          w.upgrade (fun _ => true) = none ∧
          (∀ i e, i < pos → ([] : TexTable)[i]? = some e →
            ((e : Nat × WeakRef).2.upgrade (fun _ => true)).isSome = true) ∧
          t2 = ([] : TexTable).eraseIdx pos ++ [(u, WeakRef.ref 0)]) ∨
        ((∀ e ∈ ([] : TexTable),
            ((e : Nat × WeakRef).2.upgrade (fun _ => true)).isSome = true) ∧
          ∃ w rest, ([] : TexTable) = (u, w) :: rest ∧
            t2 = rest ++ [(u, WeakRef.ref 0)])) :=
  C3_fresh_unit_choice (fun _ => true) 0 [] rfl

/-- C8: when the bind callback fails on a freshly chosen unit, the pair
(unit, unresolvable weak reference) is pushed at the head of the table, the
error is returned; the reserved unit is the first dead slot under any later
liveness map, so a subsequent at-capacity allocation reuses exactly that
unit. -/
theorem C8_bind_failure_reserves_unit {ε : Type} (alive : Nat → Bool)
    (tex : Nat) (t : TexTable) (u : Nat) (t2 : TexTable) (e : ε)
    (hmiss : find_cache_tex alive tex t = none)
    (hchoose : choose_unit alive t = (u, t2)) :
    prepare_cache_tex alive tex (fun _ => Except.error e) t =
      (Except.error e, (u, WeakRef.new) :: t2) ∧
    (∀ alive2, popFirstDead alive2 ((u, WeakRef.new) :: t2) = some (u, t2)) ∧
    (∀ (alive2 : Nat → Bool) (tex2 : Nat),
      find_cache_tex alive2 tex2 ((u, WeakRef.new) :: t2) = none →
      MAX_TEXTURE_UNITS ≤ ((u, WeakRef.new) :: t2).length →
      (prepare_cache_tex alive2 tex2
          (fun _ => (Except.ok () : Except ε Unit))
          ((u, WeakRef.new) :: t2)).1 = Except.ok u) := by
  refine ⟨by simp [prepare_cache_tex, hmiss, hchoose], ?_, ?_⟩
  · intro alive2
    rw [popFirstDead]
    simp [WeakRef.upgrade]
  · intro alive2 tex2 hm2 hlen2
    have hpop : popFirstDead alive2 ((u, WeakRef.new) :: t2) = some (u, t2) := by
      rw [popFirstDead]
      simp [WeakRef.upgrade]
    have hcu2 : choose_unit alive2 ((u, WeakRef.new) :: t2) = (u, t2) := by
      unfold choose_unit
      rw [if_pos hlen2, hpop]
    simp [prepare_cache_tex, hm2, hcu2]

theorem C8_witness :
    prepare_cache_tex (fun _ => true) 0
        (fun _ => (Except.error () : Except Unit Unit)) ([] : TexTable) =
      (Except.error (), [(0, WeakRef.new)]) :=
  (C8_bind_failure_reserves_unit (fun _ => true) 0 [] 0 [] () rfl rfl).1

/-- C4: starting from a state where a rebind is needed, two consecutive
`prepare_cache` calls with the same (still-alive) resource invoke the bind
callback exactly once: the first call binds and caches the downgrade of the
resource; the second resolves the cached weak reference to the identity-equal
resource, invokes no callback (count 0, result independent of the callback),
leaves the cache unchanged and returns `Ok`. -/
theorem C4_rebind_is_noop {ε : Type} (alive : Nat → Bool) (cache : WeakRef)
    (new_p : Nat) (halive : alive new_p = true)
    (hneed : need_cache alive cache new_p = true) :
    prepare_cache alive cache new_p (Except.ok () : Except ε Unit) =
      (Except.ok (), WeakRef.ref new_p, 1) ∧
    (WeakRef.ref new_p).upgrade alive = some new_p ∧
    ∀ bind2 : Except ε Unit,
      prepare_cache alive (WeakRef.ref new_p) new_p bind2 =
        (Except.ok (), WeakRef.ref new_p, 0) := by
  have hup : (WeakRef.ref new_p).upgrade alive = some new_p := by
    simp [WeakRef.upgrade, halive]
  have hnc : need_cache alive (WeakRef.ref new_p) new_p = false := by
    simp [need_cache, hup]
  exact ⟨by simp [prepare_cache, hneed], hup,
    fun bind2 => by simp [prepare_cache, hnc]⟩

theorem C4_witness :
    prepare_cache (fun _ => true) WeakRef.new 0
        (Except.ok () : Except Unit Unit) =
      (Except.ok (), WeakRef.ref 0, 1) ∧
    (WeakRef.ref 0).upgrade (fun _ => true) = some 0 ∧
    ∀ bind2 : Except Unit Unit,
      prepare_cache (fun _ => true) (WeakRef.ref 0) 0 bind2 =
        (Except.ok (), WeakRef.ref 0, 0) :=
  C4_rebind_is_noop (fun _ => true) WeakRef.new 0 rfl rfl

/-- C7: when the bind callback is invoked (a rebind is needed) and returns an
error, `prepare_cache` returns that same error and leaves the single-slot
cache's weak reference exactly as it was before the call. -/
theorem C7_failed_bind_preserves_cache {ε : Type} (alive : Nat → Bool)
    (cache : WeakRef) (new_p : Nat) (e : ε)
    (hneed : need_cache alive cache new_p = true) :
    prepare_cache alive cache new_p (Except.error e) =
      (Except.error e, cache, 1) := by
  simp [prepare_cache, hneed]

theorem C7_witness :
    prepare_cache (fun _ => false) (WeakRef.ref 3) 3
        (Except.error () : Except Unit Unit) =
      (Except.error (), WeakRef.ref 3, 1) :=
  C7_failed_bind_preserves_cache (fun _ => false) (WeakRef.ref 3) 3 ()
    (by decide)

end Unigame
